import Mathlib

/-!
Verification of the terminal input-event decoder of this repository.

The embedding below translates the Go sources:
  * `src/unnamed/part_002` — the ANSI `driver` (`peekInput`, `parseCsi`,
    `parseSs3`, `parseOsc`, `parseCtrl`, `ReadInput`, `PeekInput`);
  * `src/exp/term/input/driver.go` — the `Driver.readEvents` loop with the
    bracketed-paste state machine.

Bytes and runes are modelled as `Nat`.  Sequences of bytes are `List Nat`.
Functions of the repository that are outside `src/` (the key table built by
`registerKeys`, `parseX10MouseEvent`, `parseSGRMouseEvent`, `kittyKeyMap`,
`fromKittyMod`, `xParseColor`, the `ansi` helper methods and the
`EventParser` used by `driver.go`) are modelled from the spec; each such
definition carries a doc comment starting with `Modelled from the spec:`.

The scan loop of `peekInput` does not terminate on some inputs (this is one
of the findings below), so the loop is embedded with an explicit fuel
parameter; a fuel-out returns `none`.  All definitions are structural
recursions, hence executable, and all concrete evaluations go through the
kernel with `decide`/`rfl`.
-/

namespace ansi

/-- ESC byte (0x1B). -/
def ESC : Nat := 0x1B

/-- 8-bit SS3 introducer (0x8F). -/
def SS3 : Nat := 0x8F

/-- 8-bit DCS introducer (0x90). -/
def DCS : Nat := 0x90

/-- 8-bit CSI introducer (0x9B). -/
def CSI : Nat := 0x9B

/-- 8-bit ST string terminator (0x9C). -/
def ST : Nat := 0x9C

/-- 8-bit OSC introducer (0x9D). -/
def OSC : Nat := 0x9D

/-- 8-bit APC introducer (0x9F). -/
def APC : Nat := 0x9F

/-- BEL byte (0x07). -/
def BEL : Nat := 0x07

/-- US byte (0x1F), the last C0 control. -/
def US : Nat := 0x1F

/-- Space byte (0x20). -/
def SP : Nat := 0x20

/-- DEL byte (0x7F). -/
def DEL : Nat := 0x7F

end ansi

/-- The Unicode replacement character U+FFFD (`utf8.RuneError`). -/
def RuneError : Nat := 0xFFFD

/-- The `input.Alt` modifier bit (`input` package: Shift, Alt, Ctrl, ... as
successive bits, so Shift = 1, Alt = 2, Ctrl = 4, Meta = 8, ...). -/
def ShiftMod : Nat := 1

/-- Alt modifier bit. -/
def AltMod : Nat := 2

/-- Ctrl modifier bit. -/
def CtrlMod : Nat := 4

/-- Meta modifier bit. -/
def MetaMod : Nat := 8

/-- Hyper modifier bit. -/
def HyperMod : Nat := 16

/-- Super modifier bit. -/
def SuperMod : Nat := 32

/-- Go `input.KeyAction`: Press | Repeat | Release, the zero value is Press. -/
inductive KeyAction where
  | press
  | keyRepeat
  | release
deriving DecidableEq, Repr

/-- Go `input.KeyEvent`: named symbol, runes, alternate runes, modifier bit set
and action.  All fields default to the Go zero value. -/
structure KeyEvent where
  sym : Nat := 0
  runes : List Nat := []
  altRunes : List Nat := []
  mod : Nat := 0
  action : KeyAction := .press
deriving DecidableEq, Repr

/-- The update `k.Mod |= input.Alt`. -/
def withAlt (k : KeyEvent) : KeyEvent :=
  { k with mod := k.mod ||| AltMod }

/-- A parsed color payload (raw hex components of an OSC color reply). -/
structure Color where
  r : Nat
  g : Nat
  b : Nat
deriving DecidableEq, Repr

/-- A decoded mouse event (0-based coordinates). -/
structure MouseEvent where
  x : Nat
  y : Nat
  btn : Nat
  motion : Bool := false
  release : Bool := false
  mod : Nat := 0
deriving DecidableEq, Repr

/-- The closed union of events produced by the two drivers.  The
constructors `x10Mouse` and `sgrMouse` record the invocation of the mouse
decoders `parseX10MouseEvent` / `parseSGRMouseEvent` (which are not under
`src/`) together with the exact byte-slice argument the CSI parser hands
them. -/
inductive Event where
  | key (k : KeyEvent)
  | keyDown (k : KeyEvent)
  | unknown (raw : List Nat)
  | unknownCsi (raw : List Nat)
  | unknownSs3 (raw : List Nat)
  | x10Mouse (arg : List Nat)
  | sgrMouse (arg : List Nat)
  | fgColor (c : Option Color)
  | bgColor (c : Option Color)
  | cursorColor (c : Option Color)
  | pasteStart
  | pasteEnd
  | paste (runes : List Nat)
deriving DecidableEq, Repr

/-- Go `utf8.RuneStart`: a byte that is not a continuation byte. -/
def runeStart (b : Nat) : Bool :=
  b &&& 0xC0 != 0x80

/-- Whether `b` is a UTF-8 continuation byte (0x80–0xBF). -/
def isCont (b : Nat) : Bool :=
  0x80 ≤ b && b ≤ 0xBF

/-- Go `utf8.DecodeRune` on a byte list: returns the decoded rune and its
width; invalid or truncated input yields `(RuneError, 1)`, the empty list
`(RuneError, 0)`. -/
def decodeRune : List Nat → Nat × Nat
  | [] => (RuneError, 0)
  | b0 :: rest =>
    if b0 < 0x80 then (b0, 1)
    else if b0 < 0xC2 then (RuneError, 1)
    else if b0 < 0xE0 then
      match rest with
      | b1 :: _ =>
        if isCont b1 then (((b0 &&& 0x1F) <<< 6) ||| (b1 &&& 0x3F), 2)
        else (RuneError, 1)
      | _ => (RuneError, 1)
    else if b0 < 0xF0 then
      match rest with
      | b1 :: b2 :: _ =>
        let lo1 := if b0 = 0xE0 then 0xA0 else 0x80
        let hi1 := if b0 = 0xED then 0x9F else 0xBF
        if lo1 ≤ b1 && b1 ≤ hi1 && isCont b2 then
          (((b0 &&& 0x0F) <<< 12) ||| ((b1 &&& 0x3F) <<< 6) ||| (b2 &&& 0x3F), 3)
        else (RuneError, 1)
      | _ => (RuneError, 1)
    else if b0 < 0xF5 then
      match rest with
      | b1 :: b2 :: b3 :: _ =>
        let lo1 := if b0 = 0xF0 then 0x90 else 0x80
        let hi1 := if b0 = 0xF4 then 0x8F else 0xBF
        if lo1 ≤ b1 && b1 ≤ hi1 && isCont b2 && isCont b3 then
          (((b0 &&& 0x07) <<< 18) ||| ((b1 &&& 0x3F) <<< 12) |||
            ((b2 &&& 0x3F) <<< 6) ||| (b3 &&& 0x3F), 4)
        else (RuneError, 1)
      | _ => (RuneError, 1)
    else (RuneError, 1)

/-- Go `utf8.ValidRune`. -/
def validRune (r : Nat) : Bool :=
  r ≤ 0x10FFFF && !(0xD800 ≤ r && r ≤ 0xDFFF)

/-- Go string conversion of a single byte value (`string(b)` with `b` a
byte converts via the code point): the UTF-8 encoding of code point `b` —
one byte below 0x80, two bytes for 0x80–0xFF.  The parsers of
src/unnamed/part_002 build `seq` with `seq += string(p[i])`, so every byte
≥ 0x80 they append (the 8-bit introducers, the 8-bit ST, high payload
bytes) contributes two bytes to `seq` and hence to the returned
`len(seq)`. -/
def goStr (b : Nat) : List Nat :=
  if b < 0x80 then [b] else [0xC0 ||| (b >>> 6), 0x80 ||| (b &&& 0x3F)]

/-- Concatenated Go string conversions of a run of bytes (a scan loop of
`seq += string(p[i])`). -/
def bytesToStr (l : List Nat) : List Nat :=
  (l.map goStr).flatten

/-- The sequence table: exact byte strings mapped to key events (the Go
`map[string]input.KeyEvent`). -/
abbrev Table := List (List Nat × KeyEvent)

/-- Exact-match lookup in the sequence table (`d.table[s]` with the comma-ok
form). -/
def lookupTable (t : Table) (s : List Nat) : Option KeyEvent :=
  match t.find? (fun e => e.1 = s) with
  | some e => some e.2
  | none => none

/-- Map indexing without the comma-ok form: a missing key yields the zero
`KeyEvent`, as in Go. -/
def tableGet (t : Table) (s : List Nat) : KeyEvent :=
  (lookupTable t s).getD {}

/-- Split a byte list on a separator byte (Go `strings.Split` shape: the
empty list splits into one empty component). -/
def splitOn (sep : Nat) : List Nat → List (List Nat)
  | [] => [[]]
  | b :: rest =>
    let r := splitOn sep rest
    if b = sep then [] :: r
    else
      match r with
      | [] => [[b]]
      | h :: t => (b :: h) :: t

/-- Decimal value of a run of ASCII digit bytes (empty run is 0). -/
def decNum (l : List Nat) : Nat :=
  l.foldl (fun a c => a * 10 + (c - 0x30)) 0

/-- Modelled from the spec: `ansi.Params` turns the raw CSI parameter bytes
into a semicolon/colon-structured parameter list — parameters are separated
by `;`, sub-values of one parameter by `:`, each a decimal number.  An empty
byte string has no parameters. -/
def ansiParams (ps : List Nat) : List (List Nat) :=
  if ps = [] then []
  else (splitOn 0x3B ps).map (fun q => (splitOn 0x3A q).map decNum)

/-- Strip the CSI introducer (`ESC [` or the 8-bit CSI byte) off a full
sequence. -/
def csiBody (seq : List Nat) : List Nat :=
  match seq with
  | b0 :: b1 :: rest => if b0 = ansi.ESC ∧ b1 = 0x5B then rest else
      if b0 = ansi.CSI then b1 :: rest else seq
  | [b0] => if b0 = ansi.CSI then [] else seq
  | [] => []

/-- Modelled from the spec: `CsiSequence.Initial` — the private parameter
prefix marker (a byte in `0x3C`–`0x3F`, e.g. `<`) if the sequence has one,
otherwise 0 ("no parameter prefix"). -/
def csiInitial (seq : List Nat) : Nat :=
  match (csiBody seq).head? with
  | some c => if 0x3C ≤ c ∧ c ≤ 0x3F then c else 0
  | none => 0

/-- Modelled from the spec: `CsiSequence.Command` — the final byte of the
sequence. -/
def csiCommand (seq : List Nat) : Nat :=
  (csiBody seq).getLastD 0

/-- Modelled from the spec: `CsiSequence.Params` — the parameter bytes of
the sequence (the leading run of bytes in `0x30`–`0x3F` after the
introducer). -/
def csiParamBytes (seq : List Nat) : List Nat :=
  (csiBody seq).takeWhile (fun b => decide (0x30 ≤ b ∧ b ≤ 0x3F))

/-- Modelled from the spec: `kittyKeyMap`, "a fixed code→Symbol table"
mapping reserved Kitty key codes to named key symbols.  The spec does not
enumerate its entries; a few standard entries are given here (the theorems
below do not depend on its contents).  Symbols are encoded as nonzero
naturals. -/
def kittyKeyMap : List (Nat × Nat) :=
  [(27, 1), (13, 2), (9, 3), (127, 4)]

/-- Lookup in `kittyKeyMap`. -/
def kittyKeyLookup (code : Nat) : Option Nat :=
  match kittyKeyMap.find? (fun e => e.1 = code) with
  | some e => some e.2
  | none => none

/-- Modelled from the spec: `fromKittyMod` decodes a Kitty modifier mask
(the wire value minus one) "mapping bits to Shift/Alt/Ctrl/etc" — wire bits
are shift, alt, ctrl, super, hyper, meta in order. -/
def fromKittyMod (m : Nat) : Nat :=
  (if m &&& 1 ≠ 0 then ShiftMod else 0) |||
  (if m &&& 2 ≠ 0 then AltMod else 0) |||
  (if m &&& 4 ≠ 0 then CtrlMod else 0) |||
  (if m &&& 8 ≠ 0 then SuperMod else 0) |||
  (if m &&& 16 ≠ 0 then HyperMod else 0) |||
  (if m &&& 32 ≠ 0 then MetaMod else 0)

/-- Modelled from the spec: `parseX10MouseEvent` decodes a legacy X10 mouse
report, "three bytes following `ESC [ M`" (so a six-byte buffer) encoding
"button/modifier (byte-160 offset), column (byte-32), row (byte-32), both
1-based", converted to 0-based coordinates.  A buffer without all three
payload bytes is out of range for the decoder (the Go code would panic). -/
def parseX10MouseEvent (buf : List Nat) : Option MouseEvent :=
  if 6 ≤ buf.length then
    some { btn := buf.getD 3 0 - 160,
           x := buf.getD 4 0 - 32 - 1,
           y := buf.getD 5 0 - 32 - 1 }
  else none

/-- Hex digit value of an ASCII byte. -/
def hexVal (c : Nat) : Option Nat :=
  if 0x30 ≤ c ∧ c ≤ 0x39 then some (c - 0x30)
  else if 0x41 ≤ c ∧ c ≤ 0x46 then some (c - 0x41 + 10)
  else if 0x61 ≤ c ∧ c ≤ 0x66 then some (c - 0x61 + 10)
  else none

/-- Value of a run of hex digit bytes; `none` when empty or non-hex. -/
def hexNum (l : List Nat) : Option Nat :=
  match l with
  | [] => none
  | _ =>
    l.foldl (fun a c =>
      match a, hexVal c with
      | some v, some d => some (v * 16 + d)
      | _, _ => none) (some 0)

/-- Modelled from the spec: `xParseColor` decodes "an `rgb:` or `#`-prefixed
color spec" — `rgb:RRRR/GGGG/BBBB` (hex components separated by `/`) or
`#RRGGBB`; anything else yields no color. -/
def xParseColor (s : List Nat) : Option Color :=
  if s.take 4 = [0x72, 0x67, 0x62, 0x3A] then
    match (splitOn 0x2F (s.drop 4)).map hexNum with
    | [some r, some g, some b] => some { r := r, g := g, b := b }
    | _ => none
  else if s.take 1 = [0x23] then
    match s.drop 1 with
    | [r1, r2, g1, g2, b1, b2] =>
      match hexNum [r1, r2], hexNum [g1, g2], hexNum [b1, b2] with
      | some r, some g, some b => some { r := r, g := g, b := b }
      | _, _, _ => none
    | _ => none
  else none

/-- The Kitty keyboard protocol block of `driver.parseCsi`
(src/unnamed/part_002, the `initial == 0 && cmd == 'u'` case), as a function
of the structured parameter list. -/
def parseKittyKeyboard (params : List (List Nat)) : KeyEvent :=
  let key : KeyEvent := {}
  let key :=
    match params with
    | [] => key
    | p0 :: _ =>
      let code := p0.headD 0
      match kittyKeyLookup code with
      | some s => { key with sym := s }
      | none =>
        let r := if validRune code then code else RuneError
        let key := { key with runes := [r] }
        match p0.drop 1 with
        | al :: _ => if validRune al then { key with altRunes := [al] } else key
        | [] => key
  let key :=
    match params.drop 1 with
    | [] => key
    | p1 :: _ =>
      let m := p1.headD 0
      let key := if 1 < m then { key with mod := fromKittyMod (m - 1) } else key
      match p1.drop 1 with
      | a :: _ =>
        if a = 0 ∨ a = 1 then { key with action := .press }
        else if a = 2 then { key with action := .keyRepeat }
        else if a = 3 then { key with action := .release }
        else key
      | [] => key
  match params.drop 2 with
  | [] => key
  | p2 :: _ =>
    let r := p2.headD 0
    let r := if validRune r then r else RuneError
    { key with altRunes := [r] }

/-- The method `driver.parseCsi` (src/unnamed/part_002).  `i0` is the scan position,
`p` the peeked buffer; indexing `p[i]` is rendered as `p.getD i 0` (all call
sites keep the index in bounds).  Every `seq += string(p[i])` append goes
through `goStr`/`bytesToStr` — Go UTF-8-encodes the byte, so an 8-bit CSI
introducer adds two bytes to `seq` and to the returned `len(seq)`; the
second-step append of `[` is written literally since the guard pins the
byte to ASCII `[`.  The X10 branch hands
`append([]byte(seq), p[i+1:i+3]...)` — a raw byte slice, no re-encoding,
and only two of the three trailing bytes — to the mouse decoder, recorded
by the `Event.x10Mouse` constructor. -/
def parseCsi (t : Table) (i0 : Nat) (p : List Nat) (alt : Bool) : Nat × Event :=
  let b0 := p.getD i0 0
  let s1 : List Nat × Nat :=
    if b0 = ansi.CSI ∨ b0 = ansi.ESC then (goStr b0, i0 + 1) else ([], i0)
  let seq := s1.1
  let i := s1.2
  let s2 : List Nat × Nat :=
    if i < p.length ∧ p.getD (i - 1) 0 = ansi.ESC ∧ p.getD i 0 = 0x5B then
      (seq ++ [0x5B], i + 1)
    else (seq, i)
  let seq := s2.1
  let i := s2.2
  let ps := (p.drop i).takeWhile (fun b => decide (0x30 ≤ b ∧ b ≤ 0x3F))
  let seq := seq ++ bytesToStr ps
  let i := i + ps.length
  let ins := (p.drop i).takeWhile (fun b => decide (0x20 ≤ b ∧ b ≤ 0x2F))
  let seq := seq ++ bytesToStr ins
  let i := i + ins.length
  if p.length ≤ i ∨ p.getD i 0 < 0x40 ∨ 0x7E < p.getD i 0 then
    match lookupTable t seq with
    | some key => (seq.length, .key (if alt then withAlt key else key))
    | none => (seq.length, .unknown seq)
  else
    let seq := seq ++ goStr (p.getD i 0)
    match lookupTable t seq with
    | some k => (seq.length, .key k)
    | none =>
      if seq = [ansi.ESC, 0x5B, 0x4D] ∧ i + 3 < p.length then
        (seq.length + 3, .x10Mouse (seq ++ (p.drop (i + 1)).take 2))
      else if csiInitial seq = 0x3C ∧ (csiCommand seq = 0x6D ∨ csiCommand seq = 0x4D) then
        (seq.length, .sgrMouse seq)
      else if csiInitial seq = 0 ∧ csiCommand seq = 0x75 then
        (seq.length, .key (parseKittyKeyboard (ansiParams (csiParamBytes seq))))
      else (seq.length, .unknown seq)

/-- The method `driver.parseSs3` (src/unnamed/part_002).  As in `parseCsi`,
`seq += string(p[i])` appends are `goStr`; the `O` append is literal under
its guard. -/
def parseSs3 (t : Table) (i0 : Nat) (p : List Nat) (alt : Bool) : Nat × Event :=
  let b0 := p.getD i0 0
  let s1 : List Nat × Nat :=
    if b0 = ansi.SS3 ∨ b0 = ansi.ESC then (goStr b0, i0 + 1) else ([], i0)
  let seq := s1.1
  let i := s1.2
  let s2 : List Nat × Nat :=
    if i < p.length ∧ p.getD (i - 1) 0 = ansi.ESC ∧ p.getD i 0 = 0x4F then
      (seq ++ [0x4F], i + 1)
    else (seq, i)
  let seq := s2.1
  let i := s2.2
  if p.length ≤ i ∨ p.getD i 0 < 0x21 ∨ 0x7E < p.getD i 0 then
    match lookupTable t seq with
    | some key => (seq.length, .key (if alt then withAlt key else key))
    | none => (seq.length, .unknown seq)
  else
    let seq := seq ++ goStr (p.getD i 0)
    match lookupTable t seq with
    | some k => (seq.length, .key (if alt then withAlt k else k))
    | none => (seq.length, .unknown seq)

/-- Modelled from the spec: `OscSequence` splits its payload (the bytes
between the introducer and the terminator) "on the first `;` into an
identifier and data". This strips the introducer and terminator off the
full sequence. -/
def oscPayload (seq : List Nat) : List Nat :=
  let body :=
    if seq.take 2 = [ansi.ESC, 0x5D] then seq.drop 2
    else if seq.take 1 = [ansi.OSC] then seq.drop 1
    else seq
  if 2 ≤ body.length ∧ body.drop (body.length - 2) = [ansi.ESC, 0x5C] then
    body.take (body.length - 2)
  else
    match body.getLast? with
    | some b =>
      if b = ansi.BEL ∨ b = ansi.ESC ∨ b = ansi.ST then body.dropLast else body
    | none => body

/-- Modelled from the spec: `OscSequence.Identifier` — the payload up to the
first `;`. -/
def oscIdentifier (seq : List Nat) : List Nat :=
  (oscPayload seq).takeWhile (fun b => b != 0x3B)

/-- Modelled from the spec: `OscSequence.Data` — the payload after the first
`;`. -/
def oscData (seq : List Nat) : List Nat :=
  ((oscPayload seq).dropWhile (fun b => b != 0x3B)).drop 1

/-- The method `driver.parseOsc` (src/unnamed/part_002): scan to `BEL`, `ESC` or 8-bit
`ST`, absorb a 7-bit `ESC \` terminator, then dispatch on the identifier.
The `seq += string(p[i])` appends go through `goStr`/`bytesToStr`: body
bytes ≥ 0x80 and the 8-bit `ST` terminator each add two bytes to `seq`, so
the returned `len(seq)` then exceeds the number of scanned input bytes;
the backslash append is literal under its guard. -/
def parseOsc (_t : Table) (i0 : Nat) (p : List Nat) (_alt : Bool) : Nat × Event :=
  let b0 := p.getD i0 0
  let s1 : List Nat × Nat :=
    if b0 = ansi.OSC ∨ b0 = ansi.ESC then (goStr b0, i0 + 1) else ([], i0)
  let seq := s1.1
  let i := s1.2
  let s2 : List Nat × Nat :=
    if i < p.length ∧ p.getD (i - 1) 0 = ansi.ESC ∧ p.getD i 0 = 0x5D then
      (seq ++ [0x5D], i + 1)
    else (seq, i)
  let seq := s2.1
  let i := s2.2
  let body := (p.drop i).takeWhile
    (fun b => !(b == ansi.BEL || b == ansi.ESC || b == ansi.ST))
  let seq := seq ++ bytesToStr body
  let i := i + body.length
  if p.length ≤ i then (seq.length, .unknown seq)
  else
    let seq := seq ++ goStr (p.getD i 0)
    let seq :=
      if i + 1 < p.length ∧ p.getD i 0 = ansi.ESC ∧ p.getD (i + 1) 0 = 0x5C then
        seq ++ [0x5C]
      else seq
    if oscIdentifier seq = [0x31, 0x30] then
      (seq.length, .fgColor (xParseColor (oscData seq)))
    else if oscIdentifier seq = [0x31, 0x31] then
      (seq.length, .bgColor (xParseColor (oscData seq)))
    else if oscIdentifier seq = [0x31, 0x32] then
      (seq.length, .cursorColor (xParseColor (oscData seq)))
    else (seq.length, .unknown seq)

/-- The method `driver.parseCtrl` (src/unnamed/part_002): scan to `ST` or `ESC` (not
`BEL`), absorb a 7-bit `ESC \`, and surface `Unknown`.  The
`seq += string(p[i])` appends go through `goStr`/`bytesToStr` as in
`parseOsc`. -/
def parseCtrl (intro8 intro7 : Nat) (i0 : Nat) (p : List Nat) : Nat × Event :=
  let b0 := p.getD i0 0
  let s1 : List Nat × Nat :=
    if b0 = intro8 ∨ b0 = ansi.ESC then (goStr b0, i0 + 1) else ([], i0)
  let seq := s1.1
  let i := s1.2
  let s2 : List Nat × Nat :=
    if i < p.length ∧ p.getD (i - 1) 0 = ansi.ESC ∧ p.getD i 0 = intro7 then
      (seq ++ [intro7], i + 1)
    else (seq, i)
  let seq := s2.1
  let i := s2.2
  let body := (p.drop i).takeWhile (fun b => !(b == ansi.ST || b == ansi.ESC))
  let seq := seq ++ bytesToStr body
  let i := i + body.length
  if p.length ≤ i then (seq.length, .unknown seq)
  else
    let seq := seq ++ goStr (p.getD i 0)
    let seq :=
      if i + 1 < p.length ∧ p.getD i 0 = ansi.ESC ∧ p.getD (i + 1) 0 = 0x5C then
        seq ++ [0x5C]
      else seq
    (seq.length, .unknown seq)

/-- The method `driver.parseDcs` (src/unnamed/part_002). -/
def parseDcs (_t : Table) (i0 : Nat) (p : List Nat) (_alt : Bool) : Nat × Event :=
  parseCtrl ansi.DCS 0x50 i0 p

/-- The method `driver.parseApc` (src/unnamed/part_002). -/
def parseApc (_t : Table) (i0 : Nat) (p : List Nat) (_alt : Bool) : Nat × Event :=
  parseCtrl ansi.APC 0x5F i0 p

/-- The UTF-8 rune-collection loop inside `driver.peekInput`
(src/unnamed/part_002): greedily decode runes from position `i`, stopping at
the first error, control, DEL or space rune — note the `break` happens
before the index advances.  The fuel is only a recursion bound; every
decoded rune has width ≥ 1, so fuel `p.length` never runs out. -/
def collectRunes (p : List Nat) : Nat → Nat → List Nat × Nat
  | 0, i => ([], i)
  | fuel + 1, i =>
    if i < p.length then
      let rw := decodeRune (p.drop i)
      if rw.1 = RuneError ∨ rw.1 ≤ ansi.US ∨ rw.1 = ansi.DEL ∨ rw.1 = ansi.SP then
        ([], i)
      else
        let rest := collectRunes p fuel (i + rw.2)
        (rw.1 :: rest.1, rest.2)
    else ([], i)

/-- The scan loop of `driver.peekInput` (src/unnamed/part_002).  One fuel
unit is one arrival at the `begin` label (a loop iteration or the
`goto begin` for the Alt-prefix case; the new iteration resets `alt` to
false, the goto sets it).  The source loop does not advance the index for a
byte ≥ 0x80 that is neither an 8-bit introducer nor a UTF-8 rune start, nor
for an invalid UTF-8 lead byte, so it can run forever; fuel exhaustion
(`none`) models that divergence.  The 8-bit DCS case of the source switch
lacks a `continue`, but the fall-through code after the switch does nothing
for the DCS byte, so it behaves as a `continue`. -/
def peekLoop (t : Table) (p : List Nat) :
    Nat → Nat → Bool → List Event → Option (Nat × List Event)
  | 0, _, _, _ => none
  | fuel + 1, i, alt, ev =>
    if i < p.length then
      let b := p.getD i 0
      if b = ansi.ESC then
        if p.length = 1 then
          peekLoop t p fuel (i + 1) false (ev ++ [.key (tableGet t [ansi.ESC])])
        else if p.length ≤ i + 1 then
          let k := tableGet t [b]
          let k := if alt then withAlt k else k
          peekLoop t p fuel (i + 1) false (ev ++ [.key k])
        else
          let b1 := p.getD (i + 1) 0
          if b1 = 0x4F then
            let r := parseSs3 t i p alt
            peekLoop t p fuel (i + r.1) false (ev ++ [r.2])
          else if b1 = 0x50 then
            let r := parseDcs t i p alt
            peekLoop t p fuel (i + r.1) false (ev ++ [r.2])
          else if b1 = 0x5B then
            let r := parseCsi t i p alt
            peekLoop t p fuel (i + r.1) false (ev ++ [r.2])
          else if b1 = 0x5D then
            let r := parseOsc t i p alt
            peekLoop t p fuel (i + r.1) false (ev ++ [r.2])
          else if b1 = 0x5F then
            let r := parseApc t i p alt
            peekLoop t p fuel (i + r.1) false (ev ++ [r.2])
          else
            peekLoop t p fuel (i + 1) true ev
      else if b = ansi.SS3 then
        let r := parseSs3 t i p alt
        peekLoop t p fuel (i + r.1) false (ev ++ [r.2])
      else if b = ansi.DCS then
        let r := parseDcs t i p alt
        peekLoop t p fuel (i + r.1) false (ev ++ [r.2])
      else if b = ansi.CSI then
        let r := parseCsi t i p alt
        peekLoop t p fuel (i + r.1) false (ev ++ [r.2])
      else if b = ansi.OSC then
        let r := parseOsc t i p alt
        peekLoop t p fuel (i + r.1) false (ev ++ [r.2])
      else if b = ansi.APC then
        let r := parseApc t i p alt
        peekLoop t p fuel (i + r.1) false (ev ++ [r.2])
      else if b ≤ ansi.US ∨ b = ansi.DEL ∨ b = ansi.SP then
        let k := tableGet t [b]
        let k := if alt then withAlt k else k
        peekLoop t p fuel (i + 1) false (ev ++ [.key k])
      else if runeStart b then
        let rs := collectRunes p p.length i
        let k : KeyEvent := { runes := rs.1 }
        let k := if alt then withAlt k else k
        peekLoop t p fuel rs.2 false (ev ++ [.key k])
      else
        peekLoop t p fuel i false ev
    else some (i, ev)

/-- The method `driver.peekInput` (src/unnamed/part_002): an empty buffer is a read
error; otherwise the whole buffered byte string is looked up in the table
first, and on a miss the scan loop runs from index 0. -/
def peekInput (t : Table) (p : List Nat) (fuel : Nat) : Option (Nat × List Event) :=
  if p.length = 0 then none
  else
    match lookupTable t p with
    | some k => some (p.length, [.key k])
    | none => peekLoop t p fuel 0 false []

/-- The ANSI `driver` state of src/unnamed/part_002: the sequence table and
the currently buffered bytes of its `bufio.Reader` (`Peek` returns the
buffered bytes without consuming; `Discard` drops them). -/
structure AnsiDriver where
  table : Table
  buf : List Nat
deriving DecidableEq, Repr

/-- The method `driver.PeekInput` (src/unnamed/part_002): return the events of
`peekInput`, consuming nothing. -/
def PeekInput (d : AnsiDriver) (fuel : Nat) : Option (List Event × AnsiDriver) :=
  (peekInput d.table d.buf fuel).map (fun r => (r.2, d))

/-- The method `driver.ReadInput` (src/unnamed/part_002): the events of `peekInput`,
then `Discard` of the reported byte count. -/
def ReadInput (d : AnsiDriver) (fuel : Nat) : Option (List Event × AnsiDriver) :=
  (peekInput d.table d.buf fuel).map (fun r => (r.2, { d with buf := d.buf.drop r.1 }))

/-- Named key symbol used by the modelled parser for a bare Escape. -/
def symEscape : Nat := 1

/-- Named key symbol for cursor-up, used in concrete tables below. -/
def symUp : Nat := 5

/-- Modelled from the spec: `EventParser.ParseSequence` (the parser used by
`Driver.readEvents`, absent from src/) — returns the byte length of the
next recognized unit and its event: a lone `ESC` is a bare Escape key; an
`ESC [` sequence is scanned by the CSI grammar (parameter bytes
`0x30`–`0x3F`, intermediate bytes `0x20`–`0x2F`, one final byte
`0x40`–`0x7E`), recognizing the bracketed-paste markers `CSI 200 ~` /
`CSI 201 ~` as `PasteStart` / `PasteEnd` and surfacing other CSI units as
unknown-CSI; `ESC` plus any other byte is Alt + that byte; any other lead
byte is a plain key byte. -/
def ParseSequence (buf : List Nat) : Nat × Event :=
  match buf with
  | [] => (0, .unknown [])
  | b :: rest =>
    if b = ansi.ESC then
      match rest with
      | [] => (1, .key { sym := symEscape })
      | b1 :: _ =>
        if b1 = 0x5B then
          let ps := (buf.drop 2).takeWhile (fun c => decide (0x30 ≤ c ∧ c ≤ 0x3F))
          let ins := (buf.drop (2 + ps.length)).takeWhile
            (fun c => decide (0x20 ≤ c ∧ c ≤ 0x2F))
          let j := 2 + ps.length + ins.length
          let fin := buf.getD j 0
          if j < buf.length ∧ 0x40 ≤ fin ∧ fin ≤ 0x7E then
            if fin = 0x7E ∧ ps = [0x32, 0x30, 0x30] then (j + 1, .pasteStart)
            else if fin = 0x7E ∧ ps = [0x32, 0x30, 0x31] then (j + 1, .pasteEnd)
            else (j + 1, .unknownCsi (buf.take (j + 1)))
          else (j, .unknownCsi (buf.take j))
        else (2, .key (withAlt { runes := [b1] }))
    else (1, .key { runes := [b] })

/-- The paste-decoding loop of the `PasteEndEvent` case in
`Driver.readEvents` (src/exp/term/input/driver.go): decode the accumulator
as UTF-8, dropping invalid runs (`RuneError` results are skipped, the width
is consumed).  Fuel `l.length` suffices since every width is ≥ 1. -/
def pasteRunes : Nat → List Nat → List Nat
  | 0, _ => []
  | _, [] => []
  | fuel + 1, l@(_ :: _) =>
    let rw := decodeRune l
    if rw.1 = RuneError then pasteRunes fuel (l.drop rw.2)
    else rw.1 :: pasteRunes fuel (l.drop rw.2)

/-- The decode loop of `Driver.readEvents` (src/exp/term/input/driver.go):
for each position, parse a unit; while the paste accumulator is non-nil and
the unit is not `PasteEnd`, append the single current byte to the
accumulator and advance one byte; otherwise dispatch on the event type
(unknown units are retried against the table; `PasteStart` arms the
accumulator; `PasteEnd` flushes it, appending the `Paste` event *before*
the `PasteEnd` event itself) and advance by the parsed length. -/
def readLoop (lk : Table) (buf : List Nat) :
    Nat → Nat → List Event → Option (List Nat) → List Event × Option (List Nat)
  | 0, _, e, paste => (e, paste)
  | fuel + 1, i, e, paste =>
    if i < buf.length then
      let r := ParseSequence (buf.drop i)
      let nb := r.1
      let ev := r.2
      if paste.isSome ∧ ev ≠ Event.pasteEnd then
        readLoop lk buf fuel (i + 1) e (some (paste.getD [] ++ [buf.getD i 0]))
      else
        let step : Event × List Event × Option (List Nat) :=
          match ev with
          | .unknownCsi _ | .unknownSs3 _ | .unknown _ =>
            (match lookupTable lk ((buf.drop i).take nb) with
             | some k => (.keyDown k, e, paste)
             | none => (ev, e, paste))
          | .pasteStart => (ev, e, some [])
          | .pasteEnd =>
            let acc := paste.getD []
            (ev, e ++ [.paste (pasteRunes acc.length acc)], none)
          | _ => (ev, e, paste)
        readLoop lk buf fuel (i + nb) (step.2.1 ++ [step.1]) step.2.2
    else (e, paste)

/-- The `Driver` state of src/exp/term/input/driver.go that `readEvents`
uses: the parser's lookup table and the bracketed-paste accumulator (`none`
= not pasting). -/
structure Drv where
  lookup : Table
  paste : Option (List Nat)
deriving DecidableEq, Repr

/-- The method `Driver.readEvents` (src/exp/term/input/driver.go) on one read chunk
`buf`: the whole chunk is looked up in the table first (before any paste
handling); on a miss the decode loop runs.  Returns the emitted events and
the new paste accumulator. -/
def readEvents (d : Drv) (buf : List Nat) : List Event × Option (List Nat) :=
  match lookupTable d.lookup buf with
  | some k => ([.keyDown k], d.paste)
  | none => readLoop d.lookup buf (buf.length + 1) 0 [] d.paste

/-- A `takeWhile` passes over an append whose left part satisfies the
predicate. -/
theorem takeWhile_append_all (f : Nat → Bool) (l l' : List Nat)
    (h : ∀ b ∈ l, f b = true) :
    (l ++ l').takeWhile f = l ++ l'.takeWhile f := by
  induction l with
  | nil => rfl
  | cons a l ih =>
    have ha := h a (by simp)
    simp only [List.cons_append, List.takeWhile_cons, ha, if_true]
    rw [ih (fun b hb => h b (by simp [hb]))]

/-- A `takeWhile` keeps a list all of whose elements satisfy the predicate. -/
theorem takeWhile_all (f : Nat → Bool) (l : List Nat) (h : ∀ b ∈ l, f b = true) :
    l.takeWhile f = l := by
  simpa using takeWhile_append_all f l [] h

/-- A `takeWhile` of a list whose head fails the predicate is empty. -/
theorem takeWhile_head_false (f : Nat → Bool) (l : List Nat)
    (h : ∀ a l', l = a :: l' → f a = false) :
    l.takeWhile f = [] := by
  cases l with
  | nil => rfl
  | cons a l' => simp [List.takeWhile_cons, h a l' rfl]

/-- Go string conversion of an ASCII byte is that byte. -/
theorem goStr_ascii (b : Nat) (h : b < 0x80) : goStr b = [b] := by
  simp [goStr, h]

/-- Go string conversion of a run of ASCII bytes is the run itself. -/
theorem bytesToStr_ascii (l : List Nat) (h : ∀ b ∈ l, b < 0x80) :
    bytesToStr l = l := by
  induction l with
  | nil => rfl
  | cons a t ih =>
    have ht := ih (fun b hb => h b (by simp [hb]))
    simp only [bytesToStr, List.map_cons, List.flatten_cons] at ht ⊢
    rw [goStr_ascii a (h a (by simp)), ht]
    rfl

/-- Reassemble a list from the element at `i` and the tail after it. -/
theorem drop_cons_self (l : List Nat) (i : Nat) (h : i < l.length) :
    l.getD i 0 :: l.drop (i + 1) = l.drop i := by
  rw [List.getD_eq_getElem l 0 h, ← List.drop_eq_getElem_cons h]

/-- A `dropWhile` skips over an append whose left part satisfies the
predicate. -/
theorem dropWhile_append_all (f : Nat → Bool) (l l' : List Nat)
    (h : ∀ b ∈ l, f b = true) :
    (l ++ l').dropWhile f = l'.dropWhile f := by
  induction l with
  | nil => rfl
  | cons a l ih =>
    have ha := h a (by simp)
    simp only [List.cons_append, List.dropWhile_cons, ha, if_true]
    exact ih (fun b hb => h b (by simp [hb]))

/-- The scan loop of `peekInput` never advances on a buffer holding the
single byte 0x80: no switch case matches it, it is not a control byte and
`utf8.RuneStart` is false for it, so the loop body reaches its end with the
index unchanged — for every fuel the loop fails to finish. -/
theorem peekLoop_stuck (t : Table) (ev : List Event) :
    ∀ fuel, peekLoop t [0x80] fuel 0 false ev = none := by
  intro fuel
  induction fuel with
  | zero => rfl
  | succ n ih =>
    rw [peekLoop]
    simp [ansi.ESC, ansi.SS3, ansi.DCS, ansi.CSI, ansi.OSC, ansi.APC,
      ansi.US, ansi.DEL, ansi.SP, runeStart]
    exact ih

/-- While the paste accumulator is armed and no position of the chunk parses
to `PasteEnd`, the `readEvents` loop appends every byte to the accumulator
and emits nothing. -/
theorem readLoop_pasting (lk : Table) (buf : List Nat)
    (hnp : ∀ i, i < buf.length → (ParseSequence (buf.drop i)).2 ≠ Event.pasteEnd) :
    ∀ fuel i e acc, buf.length - i ≤ fuel →
      readLoop lk buf fuel i e (some acc) = (e, some (acc ++ buf.drop i)) := by
  intro fuel
  induction fuel with
  | zero =>
    intro i e acc h
    rw [readLoop, List.drop_eq_nil_of_le (by omega), List.append_nil]
  | succ n ih =>
    intro i e acc h
    rw [readLoop]
    by_cases hi : i < buf.length
    · rw [if_pos hi, if_pos ⟨rfl, hnp i hi⟩]
      simp only [Option.getD_some]
      rw [ih (i + 1) e (acc ++ [buf.getD i 0]) (by omega)]
      rw [List.append_assoc]
      rw [show [buf.getD i 0] ++ buf.drop (i + 1) = buf.getD i 0 :: buf.drop (i + 1) from rfl]
      rw [drop_cons_self buf i hi]
    · rw [if_neg hi, List.drop_eq_nil_of_le (by omega), List.append_nil]

/-- Splitting `parseKittyKeyboard` on a two-parameter list: the second and
third blocks of the source applied to the first block's result. -/
theorem parseKitty_two (p0 q : List Nat) :
    parseKittyKeyboard [p0, q] =
      (let k1 := parseKittyKeyboard [p0]
       let k2 := if 1 < q.headD 0 then { k1 with mod := fromKittyMod (q.headD 0 - 1) } else k1
       match q.drop 1 with
       | a :: _ =>
         if a = 0 ∨ a = 1 then { k2 with action := .press }
         else if a = 2 then { k2 with action := .keyRepeat }
         else if a = 3 then { k2 with action := .release }
         else k2
       | [] => k2) := rfl

/-- The first block of `parseKittyKeyboard` (code point, alternate rune)
never touches the modifier or action fields. -/
theorem parseKitty_one_mod (p0 : List Nat) :
    (parseKittyKeyboard [p0]).mod = 0 ∧ (parseKittyKeyboard [p0]).action = KeyAction.press := by
  rcases p0 with _ | ⟨c, p0t⟩
  · decide
  · simp only [parseKittyKeyboard, List.drop, List.headD]
    rcases kittyKeyLookup c with _ | s
    · rcases p0t with _ | ⟨al, p0tt⟩
      · simp
      · by_cases hc : validRune c <;> by_cases hal : validRune al <;> simp [hc, hal]
    · simp

/-- Evaluation of `parseOsc` on a complete OSC sequence: introducer, an
ASCII payload free of BEL and ESC bytes, and a BEL or 7-bit `ESC \x5c`
terminator; the whole sequence is consumed and dispatched on its
identifier.  (The 8-bit ST terminator is deliberately not covered: Go's
`string(0x9C)` appends two bytes to `seq`, so `len(seq)` then exceeds the
scanned byte count — see the C8 counterexample.) -/
theorem parseOsc_complete (t : Table) (payload term : List Nat)
    (hp : ∀ b ∈ payload, b < 0x80 ∧ b ≠ ansi.BEL ∧ b ≠ ansi.ESC)
    (ht : term = [ansi.BEL] ∨ term = [ansi.ESC, 0x5C]) :
    parseOsc t 0 ([ansi.ESC, 0x5D] ++ payload ++ term) false =
      (2 + payload.length + term.length,
        let seq := [ansi.ESC, 0x5D] ++ payload ++ term
        if oscIdentifier seq = [0x31, 0x30] then Event.fgColor (xParseColor (oscData seq))
        else if oscIdentifier seq = [0x31, 0x31] then Event.bgColor (xParseColor (oscData seq))
        else if oscIdentifier seq = [0x31, 0x32] then Event.cursorColor (xParseColor (oscData seq))
        else Event.unknown seq) := by
  have hb : bytesToStr payload = payload :=
    bytesToStr_ascii payload (fun b hbb => (hp b hbb).1)
  have hdrop : List.drop (2 + payload.length) (27 :: 93 :: (payload ++ term)) = term := by
    rw [show 2 + payload.length = payload.length + 1 + 1 by omega]
    simp only [List.drop_succ_cons]
    exact List.drop_left payload term
  rcases ht with h | h <;> subst h <;>
      simp only [ansi.BEL, ansi.ESC, ansi.ST] at hdrop hp
  · have hscan' : List.takeWhile (fun b => !(b == 7) && !(b == 27) && !(b == 156))
        (payload ++ [7]) = payload := by
      rw [takeWhile_append_all _ _ _ (fun b hbb => by
        have := hp b hbb
        simp at this ⊢
        omega)]
      simp
    have h3 : (27 :: 93 :: (payload ++ [7]))[(2 : Nat) + payload.length]? = some 7 := by
      have h := List.getElem?_drop (27 :: 93 :: (payload ++ [7])) (2 + payload.length) 0
      rw [hdrop] at h
      simpa using h.symm
    have h4 : ((93 :: (payload ++ [7]))[(2 : Nat) + payload.length]?) = none :=
      List.getElem?_eq_none (by simp; omega)
    simp only [parseOsc, goStr, ansi.ESC, ansi.OSC, ansi.BEL, ansi.ST, List.cons_append,
      List.nil_append]
    norm_num [hscan', h3, h4, hb]
    rw [if_neg (by omega),
      show payload.length + 1 + 1 + 1 = 2 + payload.length + 1 from by omega]
    split_ifs <;> rfl
  · have hscan' : List.takeWhile (fun b => !(b == 7) && !(b == 27) && !(b == 156))
        (payload ++ [27, 92]) = payload := by
      rw [takeWhile_append_all _ _ _ (fun b hbb => by
        have := hp b hbb
        simp at this ⊢
        omega)]
      simp
    have h3 : (27 :: 93 :: (payload ++ [27, 92]))[(2 : Nat) + payload.length]? = some 27 := by
      have h := List.getElem?_drop (27 :: 93 :: (payload ++ [27, 92])) (2 + payload.length) 0
      rw [hdrop] at h
      simpa using h.symm
    have hd2 : List.drop (2 + payload.length) (93 :: (payload ++ [27, 92])) = [92] := by
      rw [show 2 + payload.length = payload.length + 1 + 1 by omega]
      simp only [List.drop_succ_cons]
      rw [show payload ++ [27, 92] = (payload ++ [27]) ++ [92] by simp,
        show payload.length + 1 = (payload ++ [27]).length by simp]
      exact List.drop_left _ _
    have h4 : (93 :: (payload ++ [27, 92]))[(2 : Nat) + payload.length]? = some 92 := by
      have h := List.getElem?_drop (93 :: (payload ++ [27, 92])) (2 + payload.length) 0
      rw [hd2] at h
      simpa using h.symm
    simp only [parseOsc, goStr, ansi.ESC, ansi.OSC, ansi.BEL, ansi.ST, List.cons_append,
      List.nil_append]
    norm_num [hscan', h3, h4, hb]
    simp only [if_pos (show 2 + payload.length < payload.length + 3 from by omega)]
    rw [if_neg (by omega)]
    have hlen : (27 :: 93 :: (payload ++ [27, 92])).length = 2 + payload.length + 2 := by
      simp
      omega
    rw [hlen]
    split_ifs <;> rfl
/-- A list ending in a byte other than 0x5C cannot have `ESC \x5c` as its
last two elements. -/
theorem drop_last_two_ne (x : List Nat) (a : Nat) (h : a ≠ 92) :
    ¬((x ++ [a]).drop ((x ++ [a]).length - 2) = [27, 92]) := by
  intro hdrop
  have hsplit := List.take_append_drop ((x ++ [a]).length - 2) (x ++ [a])
  rw [hdrop] at hsplit
  have h1 : (x ++ [a]).getLast? = some a := by simp
  rw [← hsplit, List.getLast?_append] at h1
  simp at h1
  exact h h1.symm

/-- The payload of a complete OSC sequence: introducer and terminator
stripped. -/
theorem oscPayload_complete (payload term : List Nat)
    (ht : term = [ansi.BEL] ∨ term = [ansi.ESC, 0x5C] ∨ term = [ansi.ST]) :
    oscPayload ([ansi.ESC, 0x5D] ++ payload ++ term) = payload := by
  rcases ht with h | h | h <;> subst h <;>
    simp only [oscPayload, ansi.ESC, ansi.OSC, ansi.BEL, ansi.ST, List.cons_append,
      List.nil_append]
  · rw [if_pos (show List.take 2 (27 :: 93 :: (payload ++ [7])) = [27, 93] from rfl)]
    simp only [List.drop_succ_cons, List.drop_zero]
    rw [if_neg (fun hc => drop_last_two_ne payload 7 (by omega) hc.2)]
    simp
  · have hl : (payload ++ [27, 92]).length - 2 = payload.length := by simp
    rw [if_pos (show List.take 2 (27 :: 93 :: (payload ++ [27, 92])) = [27, 93] from rfl)]
    simp only [List.drop_succ_cons, List.drop_zero]
    rw [if_pos ⟨by simp, by rw [hl]; exact List.drop_left payload [27, 92]⟩]
    rw [hl]
    exact List.take_left payload [27, 92]
  · rw [if_pos (show List.take 2 (27 :: 93 :: (payload ++ [156])) = [27, 93] from rfl)]
    simp only [List.drop_succ_cons, List.drop_zero]
    rw [if_neg (fun hc => drop_last_two_ne payload 156 (by omega) hc.2)]
    simp

/-- C1, counterexample: on the buffer `ESC [ 1`, which ends before any CSI
final byte, `parseCsi` (here with the empty table) consumes 3 bytes — not
zero — and emits an `Unknown` event carrying the partial sequence, so the
claimed zero-consumed/no-event behavior is false. -/
theorem c1_counterexample :
    (parseCsi [] 0 [27, 91, 49] false).1 = 3 ∧
    (parseCsi [] 0 [27, 91, 49] false).1 ≠ 0 ∧
    (parseCsi [] 0 [27, 91, 49] false).2 = Event.unknown [27, 91, 49] := by decide


/-- C1, amended: when the CSI parser scans parameter bytes (0x30–0x3F) and
intermediate bytes (0x20–0x2F) and reaches the end of the buffer before a
valid final byte, it consumes the whole scanned partial sequence — never
zero bytes — and reports the table's key event for it when the partial
sequence has an exact table entry, otherwise an `Unknown` event carrying
it. -/
theorem c1_csi_incomplete_consumes (t : Table) (ps ins : List Nat)
    (hps : ∀ b ∈ ps, 0x30 ≤ b ∧ b ≤ 0x3F)
    (hins : ∀ b ∈ ins, 0x20 ≤ b ∧ b ≤ 0x2F) :
    parseCsi t 0 ([ansi.ESC, 0x5B] ++ ps ++ ins) false =
      (2 + ps.length + ins.length,
        match lookupTable t ([ansi.ESC, 0x5B] ++ ps ++ ins) with
        | some key => Event.key key
        | none => Event.unknown ([ansi.ESC, 0x5B] ++ ps ++ ins)) := by
  have h1 : List.takeWhile (fun b => decide (48 ≤ b) && decide (b ≤ 63)) (ps ++ ins) = ps := by
    rw [takeWhile_append_all _ _ _ (fun b hb => by
      have := hps b hb
      simp only [decide_eq_true_eq, Bool.and_eq_true]
      omega)]
    rw [takeWhile_head_false _ _ (fun a l' hl => by
      have := hins a (by simp [hl])
      simp only [Bool.and_eq_false_iff, decide_eq_false_iff_not]
      omega), List.append_nil]
  have h2 : List.drop (2 + ps.length) (27 :: 91 :: (ps ++ ins)) = ins := by
    rw [show 2 + ps.length = ps.length + 1 + 1 by omega]
    simp only [List.drop_succ_cons]
    exact List.drop_left ps ins
  have h3 : List.takeWhile (fun b => decide (32 ≤ b) && decide (b ≤ 47)) ins = ins :=
    takeWhile_all _ _ (fun b hb => by
      have := hins b hb
      simp only [decide_eq_true_eq, Bool.and_eq_true]
      omega)
  have hb1 : bytesToStr ps = ps :=
    bytesToStr_ascii ps (fun b hb => by have := hps b hb; omega)
  have hb2 : bytesToStr ins = ins :=
    bytesToStr_ascii ins (fun b hb => by have := hins b hb; omega)
  simp only [parseCsi, goStr, ansi.ESC, ansi.CSI, List.cons_append, List.nil_append]
  norm_num
  rw [h1, hb1, h2, h3, hb2]
  rw [if_pos (Or.inl (by omega))]
  cases lookupTable t (27 :: 91 :: (ps ++ ins)) <;> simp [Prod.ext_iff] <;> omega

/-- C1, witness: the amended theorem applied to the empty table and the
buffer `ESC [ 1`. -/
theorem c1_witness :
    (∀ b ∈ ([0x31] : List Nat), 0x30 ≤ b ∧ b ≤ 0x3F) ∧
    (∀ b ∈ ([] : List Nat), 0x20 ≤ b ∧ b ≤ 0x2F) ∧
    parseCsi [] 0 ([ansi.ESC, 0x5B] ++ [0x31] ++ []) false =
      (3, Event.unknown [27, 91, 49]) :=
  ⟨by decide, by decide,
    (c1_csi_incomplete_consumes [] [0x31] [] (by decide) (by decide)).trans (by decide)⟩


/-- C2, counterexample: the full bracketed paste — start marker, bytes
`ab ESC [ A c`, end marker — yields the events
`[PasteStart, Paste("ab\x1b[Ac"), PasteEnd]`: the `Paste` event comes
before `PasteEnd`, not after it as the claim states (`readEvents` appends
the flushed `Paste` event first and the `PasteEnd` event afterwards). -/
theorem c2_counterexample :
    readEvents ⟨[], none⟩
        ([27, 91, 50, 48, 48, 126] ++ [97, 98, 27, 91, 65, 99] ++
          [27, 91, 50, 48, 49, 126]) =
      ([Event.pasteStart, Event.paste [97, 98, 27, 91, 65, 99], Event.pasteEnd], none) ∧
    ([Event.pasteStart, Event.paste [97, 98, 27, 91, 65, 99], Event.pasteEnd] :
        List Event) ≠
      [Event.pasteStart, Event.pasteEnd, Event.paste [97, 98, 27, 91, 65, 99]] := by
  decide


/-- C2, amended: when the paste-end marker is recognized while the paste
accumulator is armed, the decoder emits a single `Paste` event carrying all
runes decoded from the accumulator in order (invalid UTF-8 byte runs
dropped, not substituted) and then the `PasteEnd` event, discards the
accumulator and returns to idle; so the full paste of the claim yields
`[PasteStart, Paste("ab\x1b[Ac"), PasteEnd]`. -/
theorem c2_paste_flush (lk : Table) (buf : List Nat) (fuel i nb : Nat)
    (e : List Event) (acc : List Nat)
    (hi : i < buf.length) (hp : ParseSequence (buf.drop i) = (nb, Event.pasteEnd)) :
    readLoop lk buf (fuel + 1) i e (some acc) =
      readLoop lk buf fuel (i + nb)
        (e ++ [Event.paste (pasteRunes acc.length acc), Event.pasteEnd]) none := by
  rw [readLoop]
  simp [hi, hp]

/-- C2, witness: the flush step applied to the end marker arriving with the
accumulator holding the byte `a`. -/
theorem c2_witness :
    (0 : Nat) < ([27, 91, 50, 48, 49, 126] : List Nat).length ∧
    ParseSequence (([27, 91, 50, 48, 49, 126] : List Nat).drop 0) =
      (6, Event.pasteEnd) ∧
    readLoop [] [27, 91, 50, 48, 49, 126] 3 0 [Event.pasteStart] (some [97]) =
      readLoop [] [27, 91, 50, 48, 49, 126] 2 6
        ([Event.pasteStart] ++ [Event.paste (pasteRunes 1 [97]), Event.pasteEnd]) none :=
  ⟨by decide, by decide,
    c2_paste_flush [] [27, 91, 50, 48, 49, 126] 2 0 6 [Event.pasteStart] [97]
      (by decide) (by decide)⟩


/-- C3, counterexample: with the paste accumulator armed (non-nil) and a
read chunk that exactly equals the table sequence `ESC [ A`, the
whole-chunk lookup fast path of `readEvents` — which runs before the paste
check — emits a key event and leaves the accumulator untouched, so the
bytes are reinterpreted as a key event while pasting. -/
theorem c3_counterexample :
    readEvents ⟨[([27, 91, 65], { sym := symUp })], some []⟩ [27, 91, 65] =
      ([Event.keyDown { sym := symUp }], some []) ∧
    readEvents ⟨[([27, 91, 65], { sym := symUp })], some []⟩ [27, 91, 65] ≠
      ([], some [27, 91, 65]) := by decide


/-- C3, amended: while the paste accumulator is non-nil, every byte handled
by the per-chunk decode loop whose parse is not a recognized paste-end
sequence is appended verbatim to the accumulator and produces no event —
provided the whole read chunk does not exactly match a table sequence,
since that fast path runs before the paste check and bypasses the
accumulator. -/
theorem c3_pasting_appends (lk : Table) (buf : List Nat) (acc : List Nat)
    (hlk : lookupTable lk buf = none)
    (hnp : ∀ i, i < buf.length → (ParseSequence (buf.drop i)).2 ≠ Event.pasteEnd) :
    readEvents ⟨lk, some acc⟩ buf = ([], some (acc ++ buf)) := by
  unfold readEvents
  simp only [hlk]
  rw [readLoop_pasting lk buf hnp (buf.length + 1) 0 [] acc (by omega)]
  simp

/-- C3, witness: the amended theorem applied to a chunk of two plain bytes
while the accumulator holds one byte. -/
theorem c3_witness :
    lookupTable [] [98, 99] = none ∧
    (∀ i, i < ([98, 99] : List Nat).length →
      (ParseSequence (([98, 99] : List Nat).drop i)).2 ≠ Event.pasteEnd) ∧
    readEvents ⟨[], some [97]⟩ [98, 99] = ([], some ([97] ++ [98, 99])) :=
  ⟨by decide, by decide, c3_pasting_appends [] [98, 99] [97] (by decide) (by decide)⟩


/-- C4: the decode step does not terminate on every buffer.  On the
single-byte buffer 0x80 (any byte ≥ 0x80 that is neither an 8-bit
introducer nor a UTF-8 rune start behaves the same), the scan loop of
`peekInput` never advances its index, so no amount of fuel lets the call
finish: `ReadInput` loops forever instead of consuming the byte, and no sum
of consumed counts ever reaches `len(B)`. -/
theorem c4_decode_diverges (t : Table) (fuel : Nat)
    (h : lookupTable t [0x80] = none) :
    peekInput t [0x80] fuel = none := by
  unfold peekInput
  simp [h, peekLoop_stuck]

/-- C4, witness: the divergence theorem applied to the empty table at fuel
9. -/
theorem c4_witness :
    lookupTable [] [0x80] = none ∧ peekInput [] [0x80] 9 = none :=
  ⟨by decide, c4_decode_diverges [] 9 (by decide)⟩


/-- C5: on `ESC [ M` followed by exactly the three bytes 0x20 0x0A 0x14,
`parseCsi` does consume all six bytes, but the argument it hands the X10
mouse decoder is `seq ++ p[i+1:i+3]` — only the first two of the three
trailing bytes (five bytes in total, the byte 0x14 is dropped) — and the
spec-modelled decoder, which reads the three bytes at offsets 3–5 of a
six-byte report, has no third byte to read. -/
theorem c5_x10_handoff :
    parseCsi [] 0 [27, 91, 77, 0x20, 0x0A, 0x14] false =
      (6, Event.x10Mouse [27, 91, 77, 0x20, 0x0A]) ∧
    (parseCsi [] 0 [27, 91, 77, 0x20, 0x0A, 0x14] false).2 ≠
      Event.x10Mouse [27, 91, 77, 0x20, 0x0A, 0x14] ∧
    parseX10MouseEvent [27, 91, 77, 0x20, 0x0A] = none := by decide


set_option maxRecDepth 8000 in
/-- C6, counterexample: the claim fails for bytes B ≥ 0x80.  For B = 0x9B
(the 8-bit CSI introducer) decoding the two-byte buffer `ESC B` consumes
3 bytes, not the claimed 2: Go's `string(0x9B)` puts the two bytes
0xC2 0x9B into `seq` and the parser reports `len(seq)` — likewise B alone
reports 2 bytes out of a 1-byte buffer — and the resulting event is an
`Unknown` carrying 0xC2 0x9B with the Alt modifier nowhere.  For B = 0x80
the decode of `ESC B` (and of B alone) never terminates — here shown
failing at fuel 300, far above the three steps a two-byte buffer needs —
so it does not consume exactly 2 bytes either. -/
theorem c6_counterexample :
    peekInput [] [ansi.ESC, 0x9B] 8 = some (3, [Event.unknown [0xC2, 0x9B]]) ∧
    peekInput [] [0x9B] 8 = some (2, [Event.unknown [0xC2, 0x9B]]) ∧
    peekInput [] [ansi.ESC, 0x80] 300 = none ∧
    peekInput [] [0x80] 300 = none := by decide


/-- C6, amended: for a two-byte buffer `ESC B` with B < 0x80 and B not one
of `O P [ ] _`, when neither `[B]` nor `[ESC, B]` is a table entry (the
exact-match fast path would otherwise return table entries verbatim),
decoding consumes exactly 2 bytes and yields the same single key event that
the one-byte buffer B alone yields, with the Alt modifier additionally
set.  For B ≥ 0x80 the claim fails (see the counterexample). -/
theorem c6_alt_byte (t : Table) (b : Nat) (hb : b < 0x80)
    (hsp : b ≠ 0x4F ∧ b ≠ 0x50 ∧ b ≠ 0x5B ∧ b ≠ 0x5D ∧ b ≠ 0x5F)
    (h1 : lookupTable t [b] = none) (h2 : lookupTable t [ansi.ESC, b] = none) :
    ∃ k : KeyEvent,
      peekInput t [b] 4 = some (1, [Event.key k]) ∧
      peekInput t [ansi.ESC, b] 4 = some (2, [Event.key (withAlt k)]) := by
  obtain ⟨hs1, hs2, hs3, hs4, hs5⟩ := hsp
  have h2' : lookupTable t [27, b] = none := h2
  have hget : tableGet t [b] = {} := by simp [tableGet, h1]
  by_cases hesc : b = 27
  · subst hesc
    refine ⟨{}, ?_, ?_⟩
    · simp [peekInput, h1, peekLoop, ansi.ESC, hget]
    · simp [peekInput, h2', peekLoop, ansi.ESC, ansi.SS3, ansi.DCS, ansi.CSI,
        ansi.OSC, ansi.APC, ansi.US, ansi.DEL, ansi.SP, hget]
  · by_cases hctl : b ≤ 0x1F ∨ b = 0x7F ∨ b = 0x20
    · refine ⟨{}, ?_, ?_⟩
      · have hni : b ≠ ansi.SS3 ∧ b ≠ ansi.DCS ∧ b ≠ ansi.CSI ∧ b ≠ ansi.OSC ∧ b ≠ ansi.APC := by
          simp [ansi.SS3, ansi.DCS, ansi.CSI, ansi.OSC, ansi.APC]; omega
        simp [peekInput, h1, peekLoop, ansi.ESC, ansi.US, ansi.DEL, ansi.SP,
          hesc, hni.1, hni.2.1, hni.2.2.1, hni.2.2.2.1, hni.2.2.2.2, hctl, hget]
      · have hni : b ≠ ansi.SS3 ∧ b ≠ ansi.DCS ∧ b ≠ ansi.CSI ∧ b ≠ ansi.OSC ∧ b ≠ ansi.APC := by
          simp [ansi.SS3, ansi.DCS, ansi.CSI, ansi.OSC, ansi.APC]; omega
        simp [peekInput, h2', peekLoop, ansi.ESC, ansi.US, ansi.DEL, ansi.SP,
          hesc, hs1, hs2, hs3, hs4, hs5, hni.1, hni.2.1, hni.2.2.1, hni.2.2.2.1, hni.2.2.2.2,
          hctl, hget]
    · push_neg at hctl
      obtain ⟨hq1, hq2, hq3⟩ := hctl
      have hni : b ≠ ansi.SS3 ∧ b ≠ ansi.DCS ∧ b ≠ ansi.CSI ∧ b ≠ ansi.OSC ∧ b ≠ ansi.APC := by
        simp [ansi.SS3, ansi.DCS, ansi.CSI, ansi.OSC, ansi.APC]; omega
      have hrs : runeStart b = true := by
        have hle : b &&& 0xC0 ≤ b := Nat.and_le_left
        simp [runeStart]; omega
      have hdr : decodeRune [b] = (b, 1) := by simp [decodeRune, hb]
      have hus : ¬(b ≤ ansi.US) := by simp [ansi.US]; omega
      have hdel : b ≠ ansi.DEL := by simp [ansi.DEL]; omega
      have hspace : b ≠ ansi.SP := by simp [ansi.SP]; omega
      have hner : b ≠ RuneError := by simp [RuneError]; omega
      refine ⟨{ runes := [b] }, ?_, ?_⟩
      · simp [peekInput, h1, peekLoop, ansi.ESC, hesc,
          hni.1, hni.2.1, hni.2.2.1, hni.2.2.2.1, hni.2.2.2.2, hus, hdel, hspace, hrs,
          collectRunes, hdr, hner]
      · simp [peekInput, h2', peekLoop, ansi.ESC, hesc, hs1, hs2, hs3, hs4, hs5,
          hni.1, hni.2.1, hni.2.2.1, hni.2.2.2.1, hni.2.2.2.2, hus, hdel, hspace, hrs,
          collectRunes, hdr, hner]

/-- C6, witness: the amended theorem applied to B = `a` (0x61) and the
empty table. -/
theorem c6_witness :
    ((97 : Nat) < 0x80) ∧ lookupTable [] [97] = none ∧
    lookupTable [] [ansi.ESC, 97] = none ∧
    ∃ k : KeyEvent, peekInput [] [97] 4 = some (1, [Event.key k]) ∧
      peekInput [] [ansi.ESC, 97] 4 = some (2, [Event.key (withAlt k)]) :=
  ⟨by decide, by decide, by decide,
    c6_alt_byte [] 97 (by decide) (by decide) (by decide) (by decide)⟩


/-- C7: in a Kitty keyboard `CSI … u` sequence (parameter bytes are digits,
`:` or `;`, no private prefix, not in the table), the decoded key event's
modifier set equals `fromKittyMod` of the second parameter's first
sub-value minus 1 whenever that sub-value exceeds 1, and the second
parameter's optional second sub-value selects the action: 1 (or 0) or
absent gives Press, 2 gives Repeat, 3 gives Release. -/
theorem c7_kitty_mod_action (t : Table) (ps p0 : List Nat) (m : Nat) (rest : List Nat)
    (hps : ∀ b ∈ ps, 0x30 ≤ b ∧ b ≤ 0x3B)
    (hlk : lookupTable t ([ansi.ESC, 0x5B] ++ ps ++ [0x75]) = none)
    (hpp : ansiParams ps = [p0, m :: rest])
    (hm : 1 < m) :
    parseCsi t 0 ([ansi.ESC, 0x5B] ++ ps ++ [0x75]) false =
      (ps.length + 3, Event.key (parseKittyKeyboard [p0, m :: rest])) ∧
    (parseKittyKeyboard [p0, m :: rest]).mod = fromKittyMod (m - 1) ∧
    (rest = [] → (parseKittyKeyboard [p0, m :: rest]).action = KeyAction.press) ∧
    (rest.head? = some 1 → (parseKittyKeyboard [p0, m :: rest]).action = KeyAction.press) ∧
    (rest.head? = some 2 → (parseKittyKeyboard [p0, m :: rest]).action = KeyAction.keyRepeat) ∧
    (rest.head? = some 3 → (parseKittyKeyboard [p0, m :: rest]).action = KeyAction.release) := by
  constructor
  · -- the parseCsi evaluation
    have h1 : List.takeWhile (fun b => decide (48 ≤ b) && decide (b ≤ 63)) (ps ++ [117]) = ps := by
      rw [takeWhile_append_all _ _ _ (fun b hb => by
        have := hps b hb
        simp only [decide_eq_true_eq, Bool.and_eq_true]
        omega)]
      simp
    have h2 : List.drop (2 + ps.length) (27 :: 91 :: (ps ++ [117])) = [117] := by
      rw [show 2 + ps.length = ps.length + 1 + 1 by omega]
      simp only [List.drop_succ_cons]
      exact List.drop_left ps [117]
    have h3 : (27 :: 91 :: (ps ++ [117]))[(2 : Nat) + ps.length]? = some 117 := by
      have h := List.getElem?_drop (27 :: 91 :: (ps ++ [117])) (2 + ps.length) 0
      rw [h2] at h
      simpa using h.symm
    have hlk' : lookupTable t (27 :: 91 :: (ps ++ [117])) = none := hlk
    have hinit : csiInitial (27 :: 91 :: (ps ++ [117])) = 0 := by
      simp only [csiInitial, csiBody, ansi.ESC]
      cases ps with
      | nil => simp
      | cons a l =>
        have := hps a (by simp)
        simp
        omega
    have hcmd : csiCommand (27 :: 91 :: (ps ++ [117])) = 117 := by
      simp [csiCommand, csiBody, ansi.ESC]
    have hparam : csiParamBytes (27 :: 91 :: (ps ++ [117])) = ps := by
      simp only [csiParamBytes, csiBody, ansi.ESC, and_self, if_true]
      rw [takeWhile_append_all _ _ _ (fun b hb => by
        have := hps b hb
        simp only [decide_eq_true_eq]
        omega)]
      simp
    have hb1 : bytesToStr ps = ps :=
      bytesToStr_ascii ps (fun b hbb => by have := hps b hbb; omega)
    simp only [parseCsi, ansi.ESC, ansi.CSI, List.cons_append, List.nil_append]
    norm_num
    rw [h1, h2, hb1]
    norm_num [h3, goStr, bytesToStr]
    rw [if_neg (by omega), hlk', hinit, hcmd, hparam, hpp]
    norm_num
    omega
  · obtain ⟨hm0, ha0⟩ := parseKitty_one_mod p0
    rw [parseKitty_two]
    simp only [List.headD, List.drop, if_pos hm]
    rcases rest with _ | ⟨a, restt⟩
    · simp [hm0, ha0]
    · refine ⟨?_, by simp, ?_, ?_, ?_⟩
      · by_cases h0 : a = 0 ∨ a = 1 <;> by_cases h2 : a = 2 <;> by_cases h3 : a = 3 <;>
          simp [h0, h2, h3]
      all_goals
        intro h
        simp only [List.head?_cons, Option.some.injEq] at h
        subst h
        simp

/-- C7, witness: the theorem applied to `CSI 97;5:3 u` — key `a`, modifier
mask 5 (Ctrl, after subtracting 1), action 3 = Release. -/
theorem c7_witness :
    (∀ b ∈ ([57, 55, 59, 53, 58, 51] : List Nat), 0x30 ≤ b ∧ b ≤ 0x3B) ∧
    lookupTable [] ([ansi.ESC, 0x5B] ++ [57, 55, 59, 53, 58, 51] ++ [0x75]) = none ∧
    ansiParams [57, 55, 59, 53, 58, 51] = [[97], 5 :: [3]] ∧
    (1 : Nat) < 5 ∧
    parseCsi [] 0 ([ansi.ESC, 0x5B] ++ [57, 55, 59, 53, 58, 51] ++ [0x75]) false =
      (9, Event.key (parseKittyKeyboard [[97], [5, 3]])) ∧
    (parseKittyKeyboard [[97], [5, 3]]).mod = fromKittyMod 4 ∧
    (parseKittyKeyboard [[97], [5, 3]]).action = KeyAction.release := by
  have h := c7_kitty_mod_action [] [57, 55, 59, 53, 58, 51] [97] 5 [3]
    (by decide) (by decide) (by decide) (by decide)
  exact ⟨by decide, by decide, by decide, by decide, h.1.trans (by decide),
    h.2.1, h.2.2.2.2.2 (by decide)⟩


/-- C8, amended: an OSC sequence with identifier 10, 11 or 12 and an ASCII
data payload decodes to `ForegroundColor` / `BackgroundColor` /
`CursorColor` respectively, carrying the color parsed from the data, both
when terminated by BEL and by the 7-bit `ESC \x5c` String Terminator; an
OSC sequence with any other (ASCII) identifier yields an `Unknown` event
carrying the raw sequence.  The 8-bit ST terminator is excluded: its Go
string conversion corrupts `seq` and over-counts consumption (see the
counterexample). -/
theorem c8_osc_colors (t : Table) (d : List Nat)
    (hd : ∀ b ∈ d, b < 0x80 ∧ b ≠ ansi.BEL ∧ b ≠ ansi.ESC) :
    (∀ term, term = [ansi.BEL] ∨ term = [ansi.ESC, 0x5C] →
      parseOsc t 0 ([ansi.ESC, 0x5D] ++ ([0x31, 0x30, 0x3B] ++ d) ++ term) false =
        (5 + d.length + term.length, Event.fgColor (xParseColor d)) ∧
      parseOsc t 0 ([ansi.ESC, 0x5D] ++ ([0x31, 0x31, 0x3B] ++ d) ++ term) false =
        (5 + d.length + term.length, Event.bgColor (xParseColor d)) ∧
      parseOsc t 0 ([ansi.ESC, 0x5D] ++ ([0x31, 0x32, 0x3B] ++ d) ++ term) false =
        (5 + d.length + term.length, Event.cursorColor (xParseColor d))) ∧
    (∀ idb term, term = [ansi.BEL] ∨ term = [ansi.ESC, 0x5C] →
      (∀ b ∈ idb, b < 0x80 ∧ b ≠ ansi.BEL ∧ b ≠ ansi.ESC ∧ b ≠ 0x3B) →
      idb ≠ [0x31, 0x30] → idb ≠ [0x31, 0x31] → idb ≠ [0x31, 0x32] →
      parseOsc t 0 ([ansi.ESC, 0x5D] ++ (idb ++ [0x3B] ++ d) ++ term) false =
        (2 + (idb.length + 1 + d.length) + term.length,
          Event.unknown ([ansi.ESC, 0x5D] ++ (idb ++ [0x3B] ++ d) ++ term))) := by
  constructor
  · intro term ht
    have hterm3 : term = [ansi.BEL] ∨ term = [ansi.ESC, 0x5C] ∨ term = [ansi.ST] := by
      tauto
    have hdig : ∀ pre : List Nat, (∀ c ∈ pre, c < 0x80 ∧ c ≠ ansi.BEL ∧ c ≠ ansi.ESC) →
        ∀ b ∈ (pre ++ d), b < 0x80 ∧ b ≠ ansi.BEL ∧ b ≠ ansi.ESC := by
      intro pre hpre b hb
      rcases List.mem_append.1 hb with h | h
      · exact hpre b h
      · exact hd b h
    refine ⟨?_, ?_, ?_⟩
    · have hpay := oscPayload_complete ([0x31, 0x30, 0x3B] ++ d) term hterm3
      rw [parseOsc_complete t ([0x31, 0x30, 0x3B] ++ d) term (hdig _ (by decide)) ht]
      have hid : oscIdentifier ([ansi.ESC, 0x5D] ++ ([0x31, 0x30, 0x3B] ++ d) ++ term)
          = [0x31, 0x30] := by
        simp only [oscIdentifier]
        rw [hpay]
        simp
      have hdat : oscData ([ansi.ESC, 0x5D] ++ ([0x31, 0x30, 0x3B] ++ d) ++ term) = d := by
        simp only [oscData]
        rw [hpay]
        simp
      simp only [hid, hdat]
      norm_num
      omega
    · have hpay := oscPayload_complete ([0x31, 0x31, 0x3B] ++ d) term hterm3
      rw [parseOsc_complete t ([0x31, 0x31, 0x3B] ++ d) term (hdig _ (by decide)) ht]
      have hid : oscIdentifier ([ansi.ESC, 0x5D] ++ ([0x31, 0x31, 0x3B] ++ d) ++ term)
          = [0x31, 0x31] := by
        simp only [oscIdentifier]
        rw [hpay]
        simp
      have hdat : oscData ([ansi.ESC, 0x5D] ++ ([0x31, 0x31, 0x3B] ++ d) ++ term) = d := by
        simp only [oscData]
        rw [hpay]
        simp
      simp only [hid, hdat]
      norm_num
      omega
    · have hpay := oscPayload_complete ([0x31, 0x32, 0x3B] ++ d) term hterm3
      rw [parseOsc_complete t ([0x31, 0x32, 0x3B] ++ d) term (hdig _ (by decide)) ht]
      have hid : oscIdentifier ([ansi.ESC, 0x5D] ++ ([0x31, 0x32, 0x3B] ++ d) ++ term)
          = [0x31, 0x32] := by
        simp only [oscIdentifier]
        rw [hpay]
        simp
      have hdat : oscData ([ansi.ESC, 0x5D] ++ ([0x31, 0x32, 0x3B] ++ d) ++ term) = d := by
        simp only [oscData]
        rw [hpay]
        simp
      simp only [hid, hdat]
      norm_num
      omega
  · intro idb term ht hidb hne1 hne2 hne3
    have hterm3 : term = [ansi.BEL] ∨ term = [ansi.ESC, 0x5C] ∨ term = [ansi.ST] := by
      tauto
    have hp : ∀ b ∈ (idb ++ [0x3B] ++ d), b < 0x80 ∧ b ≠ ansi.BEL ∧ b ≠ ansi.ESC := by
      intro b hb
      simp only [List.append_assoc, List.mem_append, List.mem_cons, List.not_mem_nil,
        or_false] at hb
      rcases hb with h | h | h
      · have := hidb b h
        tauto
      · subst h
        simp [ansi.BEL, ansi.ESC]
      · exact hd b h
    have hpay := oscPayload_complete (idb ++ [0x3B] ++ d) term hterm3
    rw [parseOsc_complete t (idb ++ [0x3B] ++ d) term hp ht]
    have hid : oscIdentifier ([ansi.ESC, 0x5D] ++ (idb ++ [0x3B] ++ d) ++ term) = idb := by
      simp only [oscIdentifier]
      rw [hpay]
      rw [List.append_assoc]
      rw [takeWhile_append_all _ _ _ (fun b hb => by
        have := hidb b hb
        simp only [bne_iff_ne, ne_eq]
        tauto)]
      simp
    simp only [hid]
    rw [if_neg hne1, if_neg hne2, if_neg hne3]
    norm_num
    omega
/-- C8, counterexample: with the 8-bit ST terminator 0x9C the claim as
stated fails: Go's `string(0x9C)` appends the two bytes 0xC2 0x9C to
`seq`, so `parseOsc` on the 24-byte sequence
`ESC ] 11;rgb:1000/2000/3000 ST` reports 25 consumed bytes — one more than
the sequence holds — and the data handed to the color parser acquires a
stray 0xC2 byte, so the event carries no parsed color. -/
theorem c8_counterexample :
    parseOsc [] 0 ([27, 93] ++ [49, 49, 59, 114, 103, 98, 58, 49, 48, 48, 48, 47,
        50, 48, 48, 48, 47, 51, 48, 48, 48] ++ [156]) false =
      (25, Event.bgColor none) ∧
    (([27, 93] ++ [49, 49, 59, 114, 103, 98, 58, 49, 48, 48, 48, 47, 50, 48, 48,
        48, 47, 51, 48, 48, 48] ++ [156] : List Nat)).length = 24 ∧
    parseOsc [] 0 ([27, 93] ++ [49, 49, 59, 114, 103, 98, 58, 49, 48, 48, 48, 47,
        50, 48, 48, 48, 47, 51, 48, 48, 48] ++ [156]) false ≠
      (24, Event.bgColor (some { r := 0x1000, g := 0x2000, b := 0x3000 })) := by
  decide

/-- C8, witness: the amended theorem applied to
`OSC 11 ; rgb:1000/2000/3000 BEL`, which yields `BackgroundColor` with the
parsed color components. -/
theorem c8_witness :
    (∀ b ∈ ([114, 103, 98, 58, 49, 48, 48, 48, 47, 50, 48, 48, 48, 47, 51,
        48, 48, 48] : List Nat), b < 0x80 ∧ b ≠ ansi.BEL ∧ b ≠ ansi.ESC) ∧
    parseOsc [] 0 ([ansi.ESC, 0x5D] ++ ([0x31, 0x31, 0x3B] ++
        [114, 103, 98, 58, 49, 48, 48, 48, 47, 50, 48, 48, 48, 47, 51, 48, 48, 48]) ++
        [ansi.BEL]) false =
      (24, Event.bgColor (some { r := 0x1000, g := 0x2000, b := 0x3000 })) := by
  have h := (c8_osc_colors []
    [114, 103, 98, 58, 49, 48, 48, 48, 47, 50, 48, 48, 48, 47, 51, 48, 48, 48]
    (by decide)).1 [ansi.BEL] (by decide)
  exact ⟨by decide, h.2.1.trans (by decide)⟩


/-- C9: `PeekInput` returns the same events as `ReadInput`, leaves the
driver state (buffered bytes and table) unchanged, a `ReadInput` right
after a `PeekInput` returns the same events as a direct `ReadInput`, and
only `ReadInput` discards exactly the reported number of bytes from the
buffer, touching nothing else. -/
theorem c9_peek_read_agree (d : AnsiDriver) (fuel : Nat) :
    (PeekInput d fuel).map Prod.fst = (ReadInput d fuel).map Prod.fst ∧
    (PeekInput d fuel).map Prod.snd = (PeekInput d fuel).map (fun _ => d) ∧
    ((PeekInput d fuel).bind (fun r => ReadInput r.2 fuel)).map Prod.fst =
      (ReadInput d fuel).map Prod.fst ∧
    (ReadInput d fuel).map (fun r => r.2.buf) =
      (peekInput d.table d.buf fuel).map (fun r => d.buf.drop r.1) ∧
    (ReadInput d fuel).map (fun r => r.2.table) = (ReadInput d fuel).map (fun _ => d.table) := by
  cases h : peekInput d.table d.buf fuel <;>
    simp [PeekInput, ReadInput, h]

/-- C10: when the scan loop stands on the last byte of a buffer of length
≥ 2 and that byte is ESC, the loop consumes it immediately — appending the
bare-Escape key event looked up from the table (with Alt if pending) and
advancing past it — rather than stopping to await a following byte: the
bare-Escape special case requires the total buffered byte count to be
exactly 1, not merely that ESC is the buffer's last byte. -/
theorem c10_trailing_esc (t : Table) (p : List Nat) (fuel i : Nat) (alt : Bool)
    (ev : List Event) (hlen : 2 ≤ p.length) (hi : i + 1 = p.length)
    (hb : p.getD i 0 = ansi.ESC) :
    peekLoop t p (fuel + 1) i alt ev =
      peekLoop t p fuel (i + 1) false
        (ev ++ [Event.key (if alt then withAlt (tableGet t [ansi.ESC])
                           else tableGet t [ansi.ESC])]) := by
  rw [peekLoop]
  have h1 : i < p.length := by omega
  have h2 : ¬ p.length = 1 := by omega
  have h3 : p.length ≤ i + 1 := by omega
  have hb' : p[i] = ansi.ESC := by rw [← List.getD_eq_getElem p 0 h1]; exact hb
  simp [h1, h2, h3, hb']

/-- C10, witness: the step theorem applied to the buffer `a ESC` at its
trailing ESC. -/
theorem c10_witness :
    (2 : Nat) ≤ ([97, 27] : List Nat).length ∧ (1 : Nat) + 1 = ([97, 27] : List Nat).length ∧
    ([97, 27] : List Nat).getD 1 0 = ansi.ESC ∧
    peekLoop [] [97, 27] 3 1 false [Event.key { runes := [97] }] =
      peekLoop [] [97, 27] 2 2 false [Event.key { runes := [97] }, Event.key {}] := by
  have h := c10_trailing_esc [] [97, 27] 2 1 false [Event.key { runes := [97] }]
    (by decide) (by decide) (by decide)
  exact ⟨by decide, by decide, by decide, h.trans (by decide)⟩

